import Mathlib

/-!
# Verification of the duo-toolbox coordination core

Shallow embedding of the priority-mutex registry (`src/extension/ui.js`), the
event registry and derived-event linker (`src/duo/sounds.js`), and the list
utilities they rely on (`extremumBy` / `maxBy` from `src/utils/functions.js`),
together with proofs about the embedded definitions.

JavaScript objects used as string-keyed maps are embedded as association lists
in insertion order (property updates keep the original position, new properties
are appended, `delete` removes the entry), matching the enumeration order that
`Object.values` exhibits for non-index keys.  Machine numbers that the code
manipulates (priorities, times) are embedded as `Int`; holder ids produced by
`bumpGlobalCounter` are `Nat`.  `setTimeout` is embedded by returning the list
of scheduled calls from each state transition, and—for the whole-system
model—by a task queue whose entries carry their due time: the host runs queued
tasks in due-time order, and only once their due time has passed, which is the
ordering guarantee given by browser and Node.js timer queues.  Synchronous
host code may keep the thread busy past a timer's due time, which the model
expresses by letting mutating operations occur before due tasks have run.
-/

/-! ## Association lists (JS objects used as maps) -/

/-- Lookup of a property in a JS object embedded as an association list. -/
def lookupA {κ β : Type} [DecidableEq κ] : List (κ × β) → κ → Option β
  | [], _ => none
  | (k, v) :: rest, key => if k = key then some v else lookupA rest key

/-- Property assignment `obj[key] = value`: updates in place, else appends. -/
def upsertA {κ β : Type} [DecidableEq κ] : List (κ × β) → κ → β → List (κ × β)
  | [], key, value => [(key, value)]
  | (k, v) :: rest, key, value =>
      if k = key then (key, value) :: rest else (k, v) :: upsertA rest key value

/-! ## `extremumBy`, `maxBy`, `minBy` (src/utils/functions.js)

`extremumBy` iterates once over the list, keeping the current selected value
and its calculated extremum, and replaces them exactly when the comparator
accepts the new calculated value against the stored extremum (so the first of
several equal extrema is kept). -/

/-- One iteration of the `extremumBy` loop body. -/
def extremumStep {α β : Type} (getter : α → β) (comparator : β → β → Bool)
    (acc : Option (α × β)) (v : α) : Option (α × β) :=
  let calculated := getter v
  match acc with
  | none => some (v, calculated)
  | some (sel, ext) =>
      if comparator calculated ext then some (v, calculated) else some (sel, ext)

/-- `extremumBy(values, getter, comparator)` from src/utils/functions.js
(the `isArray` guard always holds here since the embedded input is a list). -/
def extremumBy {α β : Type} (values : List α) (getter : α → β)
    (comparator : β → β → Bool) : Option α :=
  (values.foldl (extremumStep getter comparator) none).map Prod.fst

/-- The `gt` comparator (`_ > _`) used by `maxBy`, on numbers. -/
def jsGt (x y : Int) : Bool := x > y

/-- The `lt` comparator (`_ < _`) used by `minBy`, on numbers. -/
def jsLt (x y : Int) : Bool := x < y

/-- `maxBy(values, getter)` from src/utils/functions.js. -/
def maxBy {α : Type} (values : List α) (getter : α → Int) : Option α :=
  extremumBy values getter jsGt

/-- `minBy(values, getter)` from src/utils/functions.js. -/
def minBy {α : Type} (values : List α) (getter : α → Int) : Option α :=
  extremumBy values getter jsLt

/-! ## Priority constants (src/utils/constants.js) -/

/-- `PRIORITY_HIGHEST = Number.MAX_SAFE_INTEGER`. -/
def PRIORITY_HIGHEST : Int := 9007199254740991

/-- `PRIORITY_LOWEST = 1`. -/
def PRIORITY_LOWEST : Int := 1

/-- `PRIORITY_LOW = Math.round(PRIORITY_HIGHEST / 4)`; for this positive
operand `Math.round(n / 4)` equals `⌊(n + 2) / 4⌋`. -/
def PRIORITY_LOW : Int := (PRIORITY_HIGHEST + 2) / 4

/-- `PRIORITY_AVERAGE = Math.round(2 * PRIORITY_LOW)` (already an integer). -/
def PRIORITY_AVERAGE : Int := 2 * PRIORITY_LOW

/-- `PRIORITY_HIGH = Math.round(3 * PRIORITY_LOW)` (already an integer). -/
def PRIORITY_HIGH : Int := 3 * PRIORITY_LOW

/-! ## Mutex registry (src/extension/ui.js) -/

/-- A mutex holder: `{ uniqueId, priority, onAcquired, onSupersessionRequest }`.
The two callbacks are represented through the holder's unique id: a scheduled
call to a callback is recorded as a `ScheduledCall` carrying that id. -/
structure MutexHolder where
  uniqueId : Nat
  priority : Int
deriving Repr, DecidableEq

/-- A mutex: `{ currentHolder, pendingHolders }`. -/
structure Mutex where
  currentHolder : Option MutexHolder
  pendingHolders : List MutexHolder
deriving Repr, DecidableEq

/-- The mutex value installed by `updateMutex` when the stored entry is not an
object: `{ currentHolder: null, pendingHolders: [] }`. -/
def initMutex : Mutex := { currentHolder := none, pendingHolders := [] }

/-- A `setTimeout(() => ...)` call made during a mutex state transition:
either a holder's `onAcquired`, or the current holder's
`onSupersessionRequest` (the closure dereferences the mutex's current holder,
which is the holder recorded here at scheduling time). -/
inductive ScheduledCall where
  | onAcquired (holderId : Nat)
  | onSupersessionRequest (holderId : Nat)
deriving Repr, DecidableEq

/-- The update callback that `requestMutex` passes to `updateMutex`: if the
mutex is free the holder becomes `currentHolder` and its `onAcquired` is
scheduled; otherwise the holder is pushed onto `pendingHolders`, and if its
priority exceeds the current holder's, an `onSupersessionRequest` call to the
current holder is scheduled. -/
def acquireMutexUpdate (holder : MutexHolder) (m : Mutex) :
    Mutex × List ScheduledCall :=
  match m.currentHolder with
  | none =>
      ({ m with currentHolder := some holder },
        [ScheduledCall.onAcquired holder.uniqueId])
  | some cur =>
      ({ m with pendingHolders := m.pendingHolders ++ [holder] },
        if holder.priority > cur.priority then
          [ScheduledCall.onSupersessionRequest cur.uniqueId]
        else [])

/-- The update callback inside `releaseMutex`: when the given holder is not
the current holder the callback returns without a value (JavaScript
`return;`), i.e. produces `undefined`, embedded as `none`; otherwise the
highest-priority pending holder (earliest first, via `maxBy`) is promoted and
its `onAcquired` scheduled, or the mutex becomes free. -/
def releaseMutexUpdate (holderId : Nat) (m : Mutex) :
    Option Mutex × List ScheduledCall :=
  if m.currentHolder.map MutexHolder.uniqueId ≠ some holderId then
    (none, [])
  else
    match maxBy m.pendingHolders MutexHolder.priority with
    | some next =>
        (some { currentHolder := some next,
                pendingHolders :=
                  m.pendingHolders.filter (fun h => h.uniqueId != next.uniqueId) },
          [ScheduledCall.onAcquired next.uniqueId])
    | none => (some { m with currentHolder := none }, [])

/-- The shared `mutexes` map: mutex code to stored value.  The stored value is
`none` when the entry holds a non-object value (`undefined`), which
`updateMutex`'s `isObject` check treats the same as a missing entry. -/
abbrev Mutexes := List (String × Option Mutex)

/-- `updateMutex(mutexCode, updateCallback)`: reads the entry (initializing it
when it is not an object), applies the callback, and stores the callback's
result — including `undefined` when the callback returns no value. -/
def updateMutex (ms : Mutexes) (code : String)
    (updateCallback : Mutex → Option Mutex × List ScheduledCall) :
    Mutexes × List ScheduledCall :=
  let current :=
    match lookupA ms code with
    | some (some m) => m
    | _ => initMutex
  let r := updateCallback current
  (upsertA ms code r.1, r.2)

/-- The `updateMutex` call performed synchronously by `requestMutex` (its
callback always returns the mutex object). -/
def requestMutexUpdate (ms : Mutexes) (code : String) (holder : MutexHolder) :
    Mutexes × List ScheduledCall :=
  updateMutex ms code (fun m =>
    let r := acquireMutexUpdate holder m
    (some r.1, r.2))

/-- `releaseMutex(mutexCode, holderId)`. -/
def releaseMutex (ms : Mutexes) (code : String) (holderId : Nat) :
    Mutexes × List ScheduledCall :=
  updateMutex ms code (releaseMutexUpdate holderId)

/-- `isMutexLocked(mutexCode)`:
`!!getSharedGlobalVariable(KEY_MUTEXES, {})?.[mutexCode]?.currentHolder`. -/
def isMutexLocked (ms : Mutexes) (code : String) : Bool :=
  match lookupA ms code with
  | some (some m) => m.currentHolder.isSome
  | _ => false

/-! ## Whole-system model of `requestMutex` (timers, promises, task queue)

`requestMutex` runs synchronously inside a promise executor: it draws a fresh
holder id from `bumpGlobalCounter`, arms a timeout timer only when
`timeoutDelay > 0` (JavaScript `null > 0`, `0 > 0` and `d > 0` for negative
`d` are all false), and performs the acquire update.  The armed timer's
callback removes the holder from `pendingHolders` and rejects the promise
(`reject()` — with no reason value); the holder's `onAcquired` first clears
its timer, then resolves the promise with the release closure.  Queued tasks
are run by the host in due-time order once due. -/

/-- A queued host task: an armed timeout's callback, a holder's deferred
`onAcquired`, or a deferred `onSupersessionRequest` notification. -/
inductive TaskAct where
  | timeoutFire (code : String) (holderId : Nat)
  | onAcquiredRun (code : String) (holderId : Nat)
  | supersessionRun (holderId : Nat)
deriving Repr, DecidableEq

/-- A task in the host's timer queue, with the time it becomes due. -/
structure HostTask where
  due : Int
  act : TaskAct
deriving Repr, DecidableEq

/-- Observable state of a `requestMutex` promise. -/
inductive PromiseState where
  | pending
  | resolved
  | rejected
deriving Repr, DecidableEq

/-- The whole-system state: current time, the `last_mutex_holder_id` counter,
the shared `mutexes` variable, every request's promise state, and the task
queue. -/
structure World where
  now : Int
  counter : Nat
  mutexes : Mutexes
  promises : List (Nat × PromiseState)
  queue : List HostTask
deriving Repr, DecidableEq

/-- The fresh page state. -/
def initialWorld : World :=
  { now := 0, counter := 0, mutexes := [], promises := [], queue := [] }

/-- Settling a promise: only a pending promise changes state (a second
`resolve`/`reject` is a no-op). -/
def settlePromise (ps : List (Nat × PromiseState)) (id : Nat)
    (s : PromiseState) : List (Nat × PromiseState) :=
  match lookupA ps id with
  | some PromiseState.pending => upsertA ps id s
  | _ => ps

/-- A `setTimeout(() => ...)` performed during a mutex update becomes a task
due immediately (delay 0). -/
def taskOfCall (code : String) (now : Int) : ScheduledCall → HostTask
  | ScheduledCall.onAcquired id => { due := now, act := TaskAct.onAcquiredRun code id }
  | ScheduledCall.onSupersessionRequest id => { due := now, act := TaskAct.supersessionRun id }

/-- The synchronous part of `requestMutex(mutexCode, { priority, timeoutDelay,
onSupersessionRequest })`, executed at time `now`: bump the holder id counter,
arm the timeout timer when `timeoutDelay > 0`, run the acquire update, and
leave the new promise pending. -/
def doRequest (w : World) (code : String) (priority : Int)
    (timeoutDelay : Option Int) (now : Int) : World :=
  let uniqueId := w.counter + 1
  let timerTasks : List HostTask :=
    match timeoutDelay with
    | some d =>
        if d > 0 then [{ due := now + d, act := TaskAct.timeoutFire code uniqueId }]
        else []
    | none => []
  let r := requestMutexUpdate w.mutexes code { uniqueId := uniqueId, priority := priority }
  { now := now
    counter := uniqueId
    mutexes := r.1
    promises := (uniqueId, PromiseState.pending) :: w.promises
    queue := w.queue ++ timerTasks ++ r.2.map (taskOfCall code now) }

/-- A call at time `now` to the release closure `() => releaseMutex(mutexCode,
uniqueId)` that was handed to a holder. -/
def doRelease (w : World) (code : String) (holderId : Nat) (now : Int) : World :=
  let r := releaseMutex w.mutexes code holderId
  { w with now := now, mutexes := r.1, queue := w.queue ++ r.2.map (taskOfCall code now) }

/-- Execution of a single queued task.

* `timeoutFire`: the callback armed in `requestMutex` — update the mutex,
  keeping only pending holders with a different id (a spread copy of the
  mutex), then `reject()` the promise.
* `onAcquiredRun`: the holder's `onAcquired` — `clearTimeout` on its own
  timer (removing the armed timeout task, if still queued), then resolve the
  promise with the release closure.
* `supersessionRun`: calls the user's `onSupersessionRequest` callback, which
  does not touch the modelled state. -/
def execTask (w : World) (t : HostTask) : World :=
  match t.act with
  | TaskAct.timeoutFire code id =>
      let r := updateMutex w.mutexes code (fun m =>
        (some { m with
                  pendingHolders := m.pendingHolders.filter (fun h => h.uniqueId != id) },
          []))
      { w with mutexes := r.1,
               promises := settlePromise w.promises id PromiseState.rejected }
  | TaskAct.onAcquiredRun code id =>
      { w with queue := w.queue.filter (fun t2 => t2.act != TaskAct.timeoutFire code id),
               promises := settlePromise w.promises id PromiseState.resolved }
  | TaskAct.supersessionRun _ => w

/-- The host runs the earliest-due queued task (first among equal due times),
and only once it is due; otherwise nothing happens. -/
def runNextTask (w : World) : World :=
  match minBy w.queue HostTask.due with
  | none => w
  | some t => if t.due ≤ w.now then execTask { w with queue := w.queue.erase t } t else w

/-- The observable operations of the mutex subsystem. -/
inductive WorldOp where
  | request (code : String) (priority : Int) (timeoutDelay : Option Int) (now : Int)
  | release (code : String) (holderId : Nat) (now : Int)
  | runTask
deriving Repr

/-- Applying one operation. -/
def applyOp (w : World) : WorldOp → World
  | WorldOp.request code priority timeoutDelay now => doRequest w code priority timeoutDelay now
  | WorldOp.release code holderId now => doRelease w code holderId now
  | WorldOp.runTask => runNextTask w

/-- Applying a sequence of operations. -/
def runOps (w : World) (ops : List WorldOp) : World := ops.foldl applyOp w

/-- Well-formedness of the timer queue: every armed timeout belongs to an
already-allocated holder id.  It holds in `initialWorld` and is preserved by
every operation. -/
def WFTimers (w : World) : Prop :=
  ∀ t ∈ w.queue, ∀ c i, t.act = TaskAct.timeoutFire c i → i ≤ w.counter

/-! ## Event registry and derived events (src/duo/sounds.js)

Listener callbacks are embedded semantically: a plain listener is a function
from the payload tuple to a result or a thrown exception (`Except`); the
hidden listener installed by `registerDerivedEventListener` is kept as data
(`derivedForwarder`), since its behaviour — map the payload and dispatch the
derived event exactly when the mapped payload is an array — refers back to the
registry itself.  Payload values are embedded as a small JavaScript value
type, enough to distinguish arrays (`Array.isArray`) from every other
value. -/

/-- A JavaScript value, as far as the event code inspects one. -/
inductive JsValue where
  | vUndef
  | vNull
  | vBool (b : Bool)
  | vNum (n : Int)
  | vStr (s : String)
  | vArr (elems : List JsValue)
deriving Repr

/-- `Array.isArray`. -/
def jsIsArray : JsValue → Bool
  | JsValue.vArr _ => true
  | _ => false

/-- A registered listener. -/
inductive Listener where
  | fn (f : List JsValue → Except Unit JsValue)
  | derivedForwarder (derivedEvent : String) (mapPayload : List JsValue → JsValue)

/-- The shared `event_listeners` variable: event type to listener map
(listener id to callback, in insertion order). -/
abbrev EventState := List (String × List (String × Listener))

/-- `getEventListeners(event)`: the stored map for the event, or `{}`. -/
def getEventListeners (st : EventState) (event : String) : List (String × Listener) :=
  (lookupA st event).getD []

/-- `setEventListeners(event, listeners)`. -/
def setEventListeners (st : EventState) (event : String)
    (listeners : List (String × Listener)) : EventState :=
  upsertA st event listeners

/-- `hasEventListeners(event)`: `!isEmptyObject(getEventListeners(event))`. -/
def hasEventListeners (st : EventState) (event : String) : Bool :=
  !(getEventListeners st event).isEmpty

/-- `hasEventListener(event, listenerId)`: `!!getEventListeners(event)[listenerId]`. -/
def hasEventListener (st : EventState) (event listenerId : String) : Bool :=
  (lookupA (getEventListeners st event) listenerId).isSome

/-- `registerEventListener(event, callback, listenerId)` (state effect). -/
def registerEventListener (st : EventState) (event : String) (callback : Listener)
    (listenerId : String) : EventState :=
  setEventListeners st event (upsertA (getEventListeners st event) listenerId callback)

/-- `unregisterEventListener(event, listenerId)`: `delete listeners[listenerId]`. -/
def unregisterEventListener (st : EventState) (event listenerId : String) : EventState :=
  setEventListeners st event
    ((getEventListeners st event).filter (fun p => p.1 != listenerId))

/-- The hidden base listener id `` `__${baseEvent}::${derivedEvent}__` ``. -/
def derivedBaseListenerId (baseEvent derivedEvent : String) : String :=
  "__" ++ baseEvent ++ "::" ++ derivedEvent ++ "__"

/-- `registerDerivedEventListener(derivedEvent, baseEvent, derivedCallback,
mapPayload, registerBaseListener = registerEventListener, derivedListenerId)`
(state effect, with the default `registerBaseListener`): installs the hidden
base listener if absent, then registers the caller's listener on the derived
event. -/
def registerDerivedEventListener (st : EventState) (derivedEvent baseEvent : String)
    (derivedCallback : Listener) (mapPayload : List JsValue → JsValue)
    (derivedListenerId : String) : EventState :=
  let baseListenerId := derivedBaseListenerId baseEvent derivedEvent
  let st1 :=
    if hasEventListener st baseEvent baseListenerId then st
    else
      registerEventListener st baseEvent
        (Listener.derivedForwarder derivedEvent mapPayload) baseListenerId
  registerEventListener st1 derivedEvent derivedCallback derivedListenerId

/-- The combined unregister closure returned by `registerDerivedEventListener`:
remove the caller's derived listener, then remove the hidden base listener
exactly when no derived-event listener remains. -/
def unregisterDerivedEventListener (st : EventState) (derivedEvent baseEvent : String)
    (derivedListenerId : String) : EventState :=
  let st1 := unregisterEventListener st derivedEvent derivedListenerId
  if hasEventListeners st1 derivedEvent then st1
  else unregisterEventListener st1 baseEvent (derivedBaseListenerId baseEvent derivedEvent)

/-- One iteration of the `flatMap` over listeners inside `dispatchEvent`,
given the dispatcher to use for nested dispatches: a plain listener is called
inside `try`/`catch` — a thrown exception contributes nothing, a normal
return contributes its result — while the hidden derived-event listener maps
the payload, dispatches the derived event exactly when the mapped payload is
an array, and contributes `undefined` (its body is a block with no
`return`). -/
def runListener
    (recurse : String → List JsValue → Option (List JsValue) × List (String × List JsValue)) :
    Listener → List JsValue → List JsValue × List (String × List JsValue)
  | Listener.fn f, payload =>
      match f payload with
      | Except.ok r => ([r], [])
      | Except.error _ => ([], [])
  | Listener.derivedForwarder derivedEvent mapPayload, payload =>
      match mapPayload payload with
      | JsValue.vArr elems => ([JsValue.vUndef], (recurse derivedEvent elems).2)
      | _ => ([JsValue.vUndef], [])

/-- `dispatchEvent(event, ...payload)`, with an explicit recursion bound on
the depth of nested dispatches (each `derivedForwarder` dispatches one level
deeper; the bound is irrelevant whenever it exceeds the chain depth).

Returns the pair of
* the value `dispatchEvent` returns: `null` (`none`) when no listener is
  registered, otherwise the `flatMap` of the listeners' outcomes — a thrown
  exception contributes nothing, a normal return contributes its result (a
  `derivedForwarder`'s body is a block with no return, so it contributes
  `undefined`);
* the log of `dispatchEvent` invocations `(event, payload)` performed,
  including this one — a derived event is dispatched for an occurrence
  exactly when its pair appears here. -/
def dispatchEventFuel : Nat → EventState → String → List JsValue →
    Option (List JsValue) × List (String × List JsValue)
  | 0, _, _, _ => (none, [])
  | Nat.succ fuel, st, event, payload =>
      let listeners := getEventListeners st event
      if listeners.isEmpty then
        (none, [(event, payload)])
      else
        let runs := listeners.map (fun p =>
          runListener (fun e2 p2 => dispatchEventFuel fuel st e2 p2) p.2 payload)
        (some (runs.map Prod.fst).flatten, (event, payload) :: (runs.map Prod.snd).flatten)

/-- A holder id whose promise cannot be rejected: its promise is not in the
rejected state, no armed timeout task for it is queued, and the id has
already been allocated (so no future request can arm a timer for it). -/
def SafeHolder (w : World) (id : Nat) : Prop :=
  lookupA w.promises id ≠ some PromiseState.rejected ∧
  (∀ t ∈ w.queue, ∀ c, t.act ≠ TaskAct.timeoutFire c id) ∧
  id ≤ w.counter

/-! ### Concrete traces exercising the release and timeout paths -/

/-- Holder 1 acquires `"x"` (time 0) and its promise resolves; holder 2
requests (time 1) and is queued; holder 1 releases (time 2), promoting
holder 2, whose deferred `onAcquired` then resolves its promise: the state
just before holder 1's release closure is called a second time. -/
def staleReleaseWorldBefore : World :=
  runNextTask (doRelease
    (doRequest (runNextTask (doRequest initialWorld "x" 5 none 0)) "x" 5 none 1)
    "x" 1 2)

/-- The state after holder 1's release closure is called a second, stale time
(holder 2 is the current holder at that point). -/
def staleReleaseWorldAfter : World :=
  doRelease staleReleaseWorldBefore "x" 1 3

/-- Holder 1 acquires `"x"` (time 0) and resolves; holder 2 requests with
`timeoutDelay = 50` at time 10, arming a timer due at 60; holder 1's
synchronous code keeps the thread busy past time 60 and calls `release()` at
time 70, which promotes holder 2 and schedules its `onAcquired` (due 70)
behind the already expired timeout task (due 60); the host then runs the two
queued tasks in due-time order. -/
def timeoutRaceWorld : World :=
  runNextTask (runNextTask (doRelease
    (doRequest (runNextTask (doRequest initialWorld "x" 5 none 0)) "x" 5 (some 50) 10)
    "x" 1 70))

/-! ## Lemmas: association lists -/

theorem lookupA_upsertA_self {κ β : Type} [DecidableEq κ] (l : List (κ × β)) (k : κ) (v : β) :
    lookupA (upsertA l k v) k = some v := by
  induction l with
  | nil => simp [upsertA, lookupA]
  | cons p rest ih =>
      obtain ⟨a, b⟩ := p
      by_cases h : a = k
      · simp [upsertA, lookupA, h]
      · simp [upsertA, lookupA, h, ih]

theorem lookupA_upsertA_ne {κ β : Type} [DecidableEq κ] (l : List (κ × β)) (k k' : κ) (v : β)
    (h : k' ≠ k) : lookupA (upsertA l k v) k' = lookupA l k' := by
  induction l with
  | nil => simp [upsertA, lookupA, Ne.symm h]
  | cons p rest ih =>
      obtain ⟨a, b⟩ := p
      by_cases ha : a = k
      · subst ha
        simp [upsertA, lookupA, Ne.symm h]
      · simp only [upsertA, if_neg ha, lookupA]
        by_cases ha' : a = k'
        · simp [ha']
        · simp [ha', ih]

theorem lookupA_eq_none_iff {κ β : Type} [DecidableEq κ] (l : List (κ × β)) (k : κ) :
    lookupA l k = none ↔ ∀ p ∈ l, p.1 ≠ k := by
  induction l with
  | nil => simp [lookupA]
  | cons p rest ih =>
      obtain ⟨a, b⟩ := p
      by_cases h : a = k
      · simp [lookupA, h]
      · simp [lookupA, h, ih]

theorem upsertA_of_lookupA_none {κ β : Type} [DecidableEq κ] (l : List (κ × β)) (k : κ) (v : β)
    (h : lookupA l k = none) : upsertA l k v = l ++ [(k, v)] := by
  induction l with
  | nil => simp [upsertA]
  | cons p rest ih =>
      obtain ⟨a, b⟩ := p
      by_cases ha : a = k
      · simp [lookupA, ha] at h
      · simp only [lookupA, if_neg ha] at h
        simp [upsertA, ha, ih h]

theorem lookupA_append_of_none {κ β : Type} [DecidableEq κ] (l₁ l₂ : List (κ × β)) (k : κ)
    (h : lookupA l₁ k = none) : lookupA (l₁ ++ l₂) k = lookupA l₂ k := by
  induction l₁ with
  | nil => simp
  | cons p rest ih =>
      obtain ⟨a, b⟩ := p
      by_cases ha : a = k
      · simp [lookupA, ha] at h
      · simp only [lookupA, if_neg ha] at h
        simpa [lookupA, ha] using ih h

theorem filter_ne_key_of_lookupA_none {κ β : Type} [DecidableEq κ] (l : List (κ × β)) (k : κ)
    (h : lookupA l k = none) : l.filter (fun p => p.1 != k) = l := by
  rw [List.filter_eq_self]
  intro p hp
  simpa using (lookupA_eq_none_iff l k).mp h p hp

theorem countP_key_eq_zero_of_lookupA_none {κ β : Type} [DecidableEq κ] (l : List (κ × β)) (k : κ)
    (h : lookupA l k = none) : l.countP (fun p => p.1 == k) = 0 := by
  rw [List.countP_eq_zero]
  intro p hp
  simpa using (lookupA_eq_none_iff l k).mp h p hp

/-! ## Lemmas: `extremumBy` / `maxBy` (first maximum wins) -/

theorem foldl_extremumStep_gt {α : Type} (f : α → Int) :
    ∀ (l : List α) (sel : α),
      ∃ x pre post,
        l.foldl (extremumStep f jsGt) (some (sel, f sel)) = some (x, f x) ∧
        sel :: l = pre ++ x :: post ∧
        (∀ y ∈ pre, f y < f x) ∧ (∀ y ∈ sel :: l, f y ≤ f x) := by
  intro l
  induction l with
  | nil =>
      intro sel
      exact ⟨sel, [], [], rfl, rfl, by simp, by simp⟩
  | cons v t ih =>
      intro sel
      by_cases h : f sel < f v
      · obtain ⟨x, pre, post, hfold, hdec, hpre, hmax⟩ := ih v
        have hvx : f v ≤ f x := hmax v (by simp)
        refine ⟨x, sel :: pre, post, ?_, ?_, ?_, ?_⟩
        · rw [List.foldl_cons]
          have hstep : extremumStep f jsGt (some (sel, f sel)) v = some (v, f v) := by
            simp [extremumStep, jsGt, h]
          rw [hstep]; exact hfold
        · simpa using hdec
        · intro y hy
          rcases List.mem_cons.mp hy with rfl | hy
          · omega
          · exact hpre y hy
        · intro y hy
          rcases List.mem_cons.mp hy with rfl | hy
          · omega
          · exact hmax y hy
      · obtain ⟨x, pre, post, hfold, hdec, hpre, hmax⟩ := ih sel
        have hstep : extremumStep f jsGt (some (sel, f sel)) v = some (sel, f sel) := by
          simp [extremumStep, jsGt, h]
        cases pre with
        | nil =>
            simp only [List.nil_append] at hdec
            obtain ⟨rfl, rfl⟩ : sel = x ∧ t = post := by
              have := List.cons.injEq sel t x post ▸ hdec
              exact ⟨(List.cons.inj hdec).1, (List.cons.inj hdec).2⟩
            refine ⟨sel, [], v :: t, ?_, by simp, by simp, ?_⟩
            · rw [List.foldl_cons, hstep]; exact hfold
            · intro y hy
              rcases List.mem_cons.mp hy with rfl | hy
              · omega
              · rcases List.mem_cons.mp hy with rfl | hy
                · omega
                · exact hmax y (by simp [hy])
        | cons p ps =>
            have hp : sel = p := (List.cons.inj hdec).1
            have ht : t = ps ++ x :: post := (List.cons.inj hdec).2
            subst hp
            have hselx : f sel < f x := hpre sel (by simp)
            refine ⟨x, sel :: v :: ps, post, ?_, ?_, ?_, ?_⟩
            · rw [List.foldl_cons, hstep]; exact hfold
            · simp [ht]
            · intro y hy
              rcases List.mem_cons.mp hy with rfl | hy
              · exact hselx
              · rcases List.mem_cons.mp hy with rfl | hy
                · omega
                · exact hpre y (by simp [hy])
            · intro y hy
              rcases List.mem_cons.mp hy with rfl | hy
              · omega
              · rcases List.mem_cons.mp hy with rfl | hy
                · omega
                · exact hmax y (by simp [hy])

theorem maxBy_spec {α : Type} (f : α → Int) (l : List α) (hne : l ≠ []) :
    ∃ x pre post,
      maxBy l f = some x ∧ l = pre ++ x :: post ∧
      (∀ y ∈ pre, f y < f x) ∧ (∀ y ∈ l, f y ≤ f x) := by
  cases l with
  | nil => exact absurd rfl hne
  | cons sel t =>
      obtain ⟨x, pre, post, hfold, hdec, hpre, hmax⟩ := foldl_extremumStep_gt f t sel
      refine ⟨x, pre, post, ?_, hdec, hpre, hmax⟩
      unfold maxBy extremumBy
      rw [List.foldl_cons]
      have hstep : extremumStep f jsGt none sel = some (sel, f sel) := rfl
      rw [hstep, hfold]
      rfl

theorem foldl_extremumStep_result {α β : Type} (f : α → β) (comp : β → β → Bool) :
    ∀ (l : List α) (acc : Option (α × β)) (p : α × β),
      l.foldl (extremumStep f comp) acc = some p → acc = some p ∨ p.1 ∈ l := by
  intro l
  induction l with
  | nil => intro acc p hp; exact Or.inl hp
  | cons v t ih =>
      intro acc p hp
      rw [List.foldl_cons] at hp
      rcases ih _ p hp with hstep | hmem
      · cases acc with
        | none =>
            have : p = (v, f v) := by
              simpa [extremumStep] using hstep.symm
            subst this
            exact Or.inr (List.mem_cons_self _ _)
        | some q =>
            by_cases hc : comp (f v) q.2
            · have : p = (v, f v) := by
                simpa [extremumStep, hc] using hstep.symm
              subst this
              exact Or.inr (List.mem_cons_self _ _)
            · have : q = p := by
                simpa [extremumStep, hc] using hstep
              exact Or.inl (by rw [this])
      · exact Or.inr (List.mem_cons_of_mem _ hmem)

theorem extremumBy_mem {α β : Type} (l : List α) (f : α → β) (comp : β → β → Bool) (x : α)
    (h : extremumBy l f comp = some x) : x ∈ l := by
  rcases hfold : l.foldl (extremumStep f comp) none with _ | p
  · exfalso
    have hnone : extremumBy l f comp = none := by
      unfold extremumBy; rw [hfold]; rfl
    rw [hnone] at h
    exact Option.noConfusion h
  · have hx : p.1 = x := by
      have hsome : extremumBy l f comp = some p.1 := by
        unfold extremumBy; rw [hfold]; rfl
      rw [hsome] at h
      exact Option.some.inj h
    rcases foldl_extremumStep_result f comp l none p hfold with hacc | hmem
    · exact Option.noConfusion hacc
    · rw [← hx]; exact hmem

/-! ## Claim theorems: mutex state machine -/

/-- **C1**: for every sequence of `requestMutex` / `release` operations on one
mutex code, at most one holder is the `currentHolder` at any instant — an
acquire while the mutex is held leaves `currentHolder` unchanged and only
appends the requester to `pendingHolders` — and every effective release (one
whose caller is the current holder) promotes the pending holder with the
highest priority, ties broken in favour of the earliest-enqueued pending
holder (every earlier pending holder has strictly lower priority), removing
it from the pending list. -/
theorem mutex_single_holder_and_highest_priority_promotion :
    (∀ (m : Mutex) (cur holder : MutexHolder), m.currentHolder = some cur →
        (acquireMutexUpdate holder m).1.currentHolder = some cur ∧
        (acquireMutexUpdate holder m).1.pendingHolders = m.pendingHolders ++ [holder]) ∧
    (∀ (m : Mutex) (cur : MutexHolder), m.currentHolder = some cur →
        m.pendingHolders ≠ [] →
        ∃ next pre post,
          m.pendingHolders = pre ++ next :: post ∧
          (∀ y ∈ pre, y.priority < next.priority) ∧
          (∀ y ∈ m.pendingHolders, y.priority ≤ next.priority) ∧
          releaseMutexUpdate cur.uniqueId m =
            (some { currentHolder := some next,
                    pendingHolders :=
                      m.pendingHolders.filter (fun h => h.uniqueId != next.uniqueId) },
              [ScheduledCall.onAcquired next.uniqueId])) := by
  constructor
  · intro m cur holder hcur
    simp [acquireMutexUpdate, hcur]
  · intro m cur hcur hne
    obtain ⟨next, pre, post, hmax, hdec, hpre, hub⟩ :=
      maxBy_spec MutexHolder.priority m.pendingHolders hne
    refine ⟨next, pre, post, hdec, hpre, hub, ?_⟩
    simp [releaseMutexUpdate, hcur, hmax]

/-- Witness for C1 at concrete inputs: a mutex held by holder 1 with pending
holders of priorities 3, 7, 7; an acquire only appends, and holder 1's
release promotes the first of the two priority-7 pending holders. -/
theorem mutex_single_holder_and_highest_priority_promotion_witness :
    ((acquireMutexUpdate { uniqueId := 5, priority := 2 }
        { currentHolder := some { uniqueId := 1, priority := 5 },
          pendingHolders := [{ uniqueId := 2, priority := 3 }] }).1.currentHolder
          = some { uniqueId := 1, priority := 5 } ∧
      (acquireMutexUpdate { uniqueId := 5, priority := 2 }
        { currentHolder := some { uniqueId := 1, priority := 5 },
          pendingHolders := [{ uniqueId := 2, priority := 3 }] }).1.pendingHolders
          = [{ uniqueId := 2, priority := 3 }] ++ [{ uniqueId := 5, priority := 2 }]) ∧
    (∃ next pre post,
      [{ uniqueId := 2, priority := 3 }, { uniqueId := 3, priority := 7 },
        { uniqueId := 4, priority := 7 }] = pre ++ next :: post ∧
      (∀ y ∈ pre, y.priority < next.priority) ∧
      (∀ y ∈ [{ uniqueId := 2, priority := 3 }, { uniqueId := 3, priority := 7 },
          ({ uniqueId := 4, priority := 7 } : MutexHolder)], y.priority ≤ next.priority) ∧
      releaseMutexUpdate (1 : Nat)
          { currentHolder := some { uniqueId := 1, priority := 5 },
            pendingHolders := [{ uniqueId := 2, priority := 3 },
              { uniqueId := 3, priority := 7 }, { uniqueId := 4, priority := 7 }] } =
        (some { currentHolder := some next,
                pendingHolders :=
                  [{ uniqueId := 2, priority := 3 }, { uniqueId := 3, priority := 7 },
                    { uniqueId := 4, priority := 7 }].filter
                      (fun h => h.uniqueId != next.uniqueId) },
          [ScheduledCall.onAcquired next.uniqueId])) :=
  ⟨mutex_single_holder_and_highest_priority_promotion.1 _ _ _ rfl,
    mutex_single_holder_and_highest_priority_promotion.2
      { currentHolder := some { uniqueId := 1, priority := 5 },
        pendingHolders := [{ uniqueId := 2, priority := 3 },
          { uniqueId := 3, priority := 7 }, { uniqueId := 4, priority := 7 }] }
      { uniqueId := 1, priority := 5 } rfl (by decide)⟩

/-- **C8**: while a mutex is held, an incoming request leaves the current
holder unchanged and only appends the requester; it schedules exactly one
`onSupersessionRequest` notification for the current holder exactly when the
requester's priority strictly exceeds the holder's — so two successive
higher-priority requests produce two such notices before any release. -/
theorem supersession_notified_once_per_higher_request :
    (∀ (m : Mutex) (cur holder : MutexHolder), m.currentHolder = some cur →
        acquireMutexUpdate holder m =
          ({ currentHolder := some cur, pendingHolders := m.pendingHolders ++ [holder] },
            if holder.priority > cur.priority then
              [ScheduledCall.onSupersessionRequest cur.uniqueId]
            else [])) ∧
    (∀ (m : Mutex) (cur h1 h2 : MutexHolder), m.currentHolder = some cur →
        h1.priority > cur.priority → h2.priority > cur.priority →
        (acquireMutexUpdate h1 m).2 ++ (acquireMutexUpdate h2 (acquireMutexUpdate h1 m).1).2
            = [ScheduledCall.onSupersessionRequest cur.uniqueId,
                ScheduledCall.onSupersessionRequest cur.uniqueId] ∧
        (acquireMutexUpdate h2 (acquireMutexUpdate h1 m).1).1.currentHolder = some cur) := by
  constructor
  · intro m cur holder hcur
    cases m
    simp only [Mutex.mk.injEq] at hcur ⊢
    simp_all [acquireMutexUpdate]
  · intro m cur h1 h2 hcur hp1 hp2
    cases m
    simp_all [acquireMutexUpdate]

/-- Witness for C8 at concrete inputs. -/
theorem supersession_notified_once_per_higher_request_witness :
    (acquireMutexUpdate { uniqueId := 9, priority := 8 }
        { currentHolder := some { uniqueId := 1, priority := 5 }, pendingHolders := [] } =
      ({ currentHolder := some { uniqueId := 1, priority := 5 },
         pendingHolders := [] ++ [{ uniqueId := 9, priority := 8 }] },
        if (8 : Int) > 5 then [ScheduledCall.onSupersessionRequest 1] else [])) ∧
    ((acquireMutexUpdate { uniqueId := 9, priority := 8 }
        { currentHolder := some { uniqueId := 1, priority := 5 }, pendingHolders := [] }).2 ++
      (acquireMutexUpdate { uniqueId := 10, priority := 9 }
        (acquireMutexUpdate { uniqueId := 9, priority := 8 }
          { currentHolder := some { uniqueId := 1, priority := 5 },
            pendingHolders := [] }).1).2
        = [ScheduledCall.onSupersessionRequest 1, ScheduledCall.onSupersessionRequest 1]) :=
  ⟨supersession_notified_once_per_higher_request.1 _ _ _ rfl,
    (supersession_notified_once_per_higher_request.2 _ { uniqueId := 1, priority := 5 }
      { uniqueId := 9, priority := 8 } { uniqueId := 10, priority := 9 } rfl (by decide)
      (by decide)).1⟩

/-- **C9 counterexample**: a request with priority 0 — outside
`[PRIORITY_LOWEST, PRIORITY_HIGHEST]` — is stored with priority 0, not
clamped into the range (nor rejected: it becomes the holder normally). -/
theorem priority_zero_stored_unclamped :
    (acquireMutexUpdate { uniqueId := 1, priority := 0 } initMutex).1.currentHolder
        = some { uniqueId := 1, priority := 0 } ∧
    ¬ (PRIORITY_LOWEST ≤ (0 : Int)) := by
  exact ⟨rfl, by decide⟩

/-- **C9 (amended)**: a `requestMutex` priority is used exactly as given — the
request is neither clamped nor rejected, the holder record keeping the raw
priority whether the requester becomes holder or pending — while the named
levels do lie at the 25/50/75% marks of `[PRIORITY_LOWEST = 1,
PRIORITY_HIGHEST = MAXINT]` up to the rounding unit. -/
theorem priority_used_as_is_and_named_levels :
    (∀ (m : Mutex) (id : Nat) (p : Int),
        (acquireMutexUpdate { uniqueId := id, priority := p } m).1.currentHolder
            = some { uniqueId := id, priority := p } ∨
        (acquireMutexUpdate { uniqueId := id, priority := p } m).1.pendingHolders.getLast?
            = some { uniqueId := id, priority := p }) ∧
    PRIORITY_LOWEST = 1 ∧
    PRIORITY_HIGHEST = 9007199254740991 ∧
    4 * PRIORITY_LOW = PRIORITY_HIGHEST + 1 ∧
    PRIORITY_AVERAGE = 2 * PRIORITY_LOW ∧
    PRIORITY_HIGH = 3 * PRIORITY_LOW := by
  refine ⟨?_, rfl, rfl, by decide, rfl, rfl⟩
  intro m id p
  cases hm : m.currentHolder with
  | none => left; simp [acquireMutexUpdate, hm]
  | some cur => right; simp [acquireMutexUpdate, hm]

/-- **C2** (evaluating the code at the failing input): just before the
duplicate release, holder 2 is the current holder of `"x"` with an empty
pending list and a resolved promise; calling holder 1's release closure a
second time is *not* a no-op — the update callback returns `undefined`
(`return;` on the stale path), which `updateMutex` stores, wiping the mutex
entry: the stored value becomes `undefined` and the mutex reads as unlocked
even though holder 2 never released. -/
theorem stale_release_wipes_mutex_state :
    lookupA staleReleaseWorldBefore.mutexes "x"
        = some (some { currentHolder := some { uniqueId := 2, priority := 5 },
                       pendingHolders := [] }) ∧
    lookupA staleReleaseWorldBefore.promises 2 = some PromiseState.resolved ∧
    lookupA staleReleaseWorldAfter.mutexes "x" = some none ∧
    isMutexLocked staleReleaseWorldAfter.mutexes "x" = false := by
  decide

/-- **C3** (evaluating the code at the failing input): holder 2's timeout
(due 60) expires while the thread is busy; holder 1's release at time 70
promotes holder 2 (scheduling its `onAcquired`, which would `clearTimeout`,
at due time 70, behind the expired timer task); the host then runs the
timeout callback first, rejecting the promise of a request that had already
been promoted to current holder. -/
theorem promoted_holder_rejected_by_expired_timer :
    lookupA timeoutRaceWorld.mutexes "x"
        = some (some { currentHolder := some { uniqueId := 2, priority := 5 },
                       pendingHolders := [] }) ∧
    lookupA timeoutRaceWorld.promises 2 = some PromiseState.rejected := by
  decide

/-! ## Lemmas: promises, tasks and the `SafeHolder` invariant -/

theorem settlePromise_lookup_ne (ps : List (Nat × PromiseState)) (j id : Nat) (s : PromiseState)
    (h : id ≠ j) : lookupA (settlePromise ps j s) id = lookupA ps id := by
  unfold settlePromise
  cases hj : lookupA ps j with
  | none => rfl
  | some st =>
      cases st with
      | pending => exact lookupA_upsertA_ne ps j id s h
      | resolved => rfl
      | rejected => rfl

theorem settlePromise_resolved_ne_rejected (ps : List (Nat × PromiseState)) (j id : Nat)
    (h : lookupA ps id ≠ some PromiseState.rejected) :
    lookupA (settlePromise ps j PromiseState.resolved) id ≠ some PromiseState.rejected := by
  by_cases hij : id = j
  · subst hij
    unfold settlePromise
    cases hj : lookupA ps id with
    | none => simp [settlePromise, hj]
    | some st =>
        cases st with
        | pending => simp [settlePromise, hj, lookupA_upsertA_self]
        | resolved => simp [settlePromise, hj]
        | rejected => exact fun _ => h hj
  · rw [settlePromise_lookup_ne ps j id _ hij]
    exact h

theorem taskOfCall_not_timeoutFire (code : String) (now : Int) (c : ScheduledCall)
    (c' : String) (i : Nat) : (taskOfCall code now c).act ≠ TaskAct.timeoutFire c' i := by
  cases c <;> simp [taskOfCall]

theorem safeHolder_doRequest (w : World) (id : Nat) (code : String) (p : Int)
    (td : Option Int) (now : Int) (h : SafeHolder w id) :
    SafeHolder (doRequest w code p td now) id := by
  obtain ⟨hprom, hque, hcnt⟩ := h
  have hne : w.counter + 1 ≠ id := by omega
  refine ⟨?_, ?_, ?_⟩
  · simpa [doRequest, lookupA, hne] using hprom
  · intro t ht c habs
    simp only [doRequest, List.append_assoc, List.mem_append] at ht
    rcases ht with ht | ht | ht
    · exact hque t ht c habs
    · rcases htd : td with _ | d
      · rw [htd] at ht; simp at ht
      · rw [htd] at ht
        by_cases hd : d > 0
        · simp only [hd, if_pos, List.mem_singleton] at ht
          rw [ht] at habs
          simp at habs
          omega
        · simp [hd] at ht
    · rcases List.mem_map.mp ht with ⟨c0, _, hc0⟩
      rw [← hc0] at habs
      exact taskOfCall_not_timeoutFire code now c0 c id habs
  · simp only [doRequest]
    omega

theorem safeHolder_doRelease (w : World) (id : Nat) (code : String) (holderId : Nat)
    (now : Int) (h : SafeHolder w id) : SafeHolder (doRelease w code holderId now) id := by
  obtain ⟨hprom, hque, hcnt⟩ := h
  refine ⟨hprom, ?_, hcnt⟩
  intro t ht c habs
  simp only [doRelease, List.mem_append] at ht
  rcases ht with ht | ht
  · exact hque t ht c habs
  · rcases List.mem_map.mp ht with ⟨c0, _, hc0⟩
    rw [← hc0] at habs
    exact taskOfCall_not_timeoutFire code now c0 c id habs

theorem safeHolder_runNextTask (w : World) (id : Nat) (h : SafeHolder w id) :
    SafeHolder (runNextTask w) id := by
  obtain ⟨hprom, hque, hcnt⟩ := h
  unfold runNextTask
  cases hmin : minBy w.queue HostTask.due with
  | none => exact ⟨hprom, hque, hcnt⟩
  | some t =>
      by_cases hdue : t.due ≤ w.now
      · simp only [hdue, if_true]
        have htmem : t ∈ w.queue := extremumBy_mem _ _ _ _ hmin
        have hqueE : ∀ t2 ∈ w.queue.erase t, ∀ c, t2.act ≠ TaskAct.timeoutFire c id :=
          fun t2 ht2 => hque t2 (List.erase_subset _ _ ht2)
        obtain ⟨tdue, tact⟩ := t
        cases tact with
        | timeoutFire c j =>
            have hj : j ≠ id := by
              intro hji
              exact hque _ htmem c (by rw [hji])
            refine ⟨?_, ?_, hcnt⟩
            · simp only [execTask]
              rw [settlePromise_lookup_ne _ _ _ _ (fun hh => hj hh.symm)]
              exact hprom
            · intro t2 ht2 c2
              simp only [execTask] at ht2
              exact hqueE t2 ht2 c2
        | onAcquiredRun c j =>
            refine ⟨?_, ?_, hcnt⟩
            · simp only [execTask]
              exact settlePromise_resolved_ne_rejected _ _ _ hprom
            · intro t2 ht2 c2
              simp only [execTask] at ht2
              exact hqueE t2 (List.mem_of_mem_filter ht2) c2
        | supersessionRun j =>
            exact ⟨hprom, fun t2 ht2 c2 => hqueE t2 ht2 c2, hcnt⟩
      · simp only [hdue, if_false]
        exact ⟨hprom, hque, hcnt⟩

theorem safeHolder_applyOp (w : World) (id : Nat) (op : WorldOp) (h : SafeHolder w id) :
    SafeHolder (applyOp w op) id := by
  cases op with
  | request code p td now => exact safeHolder_doRequest w id code p td now h
  | release code holderId now => exact safeHolder_doRelease w id code holderId now h
  | runTask => exact safeHolder_runNextTask w id h

theorem safeHolder_runOps (w : World) (id : Nat) (ops : List WorldOp) (h : SafeHolder w id) :
    SafeHolder (runOps w ops) id := by
  induction ops generalizing w with
  | nil => exact h
  | cons op rest ih => exact ih (applyOp w op) (safeHolder_applyOp w id op h)

theorem safeHolder_established (w : World) (code : String) (p : Int) (td : Option Int)
    (now : Int) (htd : ∀ d, td = some d → d ≤ 0) (hwf : WFTimers w) :
    SafeHolder (doRequest w code p td now) (w.counter + 1) := by
  refine ⟨?_, ?_, ?_⟩
  · simp [doRequest, lookupA]
  · intro t ht c habs
    simp only [doRequest, List.append_assoc, List.mem_append] at ht
    rcases ht with ht | ht | ht
    · have := hwf t ht c (w.counter + 1) habs
      omega
    · rcases htd2 : td with _ | d
      · rw [htd2] at ht; simp at ht
      · rw [htd2] at ht
        have hd : ¬ d > 0 := by have := htd d htd2; omega
        simp [hd] at ht
    · rcases List.mem_map.mp ht with ⟨c0, _, hc0⟩
      rw [← hc0] at habs
      exact taskOfCall_not_timeoutFire code now c0 c (w.counter + 1) habs
  · simp [doRequest]

/-- **C10**: when `timeoutDelay` is `null` (absent), zero, or negative, no
timeout timer is armed — `requestMutex` adds only the deferred-notification
tasks of the acquire update to the queue — and the request's promise can
never be rejected, whatever operations follow; a timer task is armed exactly
for a strictly positive `timeoutDelay`. -/
theorem nonpositive_timeout_arms_no_timer_and_never_rejects :
    (∀ (w : World) (code : String) (p : Int) (td : Option Int) (now : Int),
        (∀ d, td = some d → d ≤ 0) →
        (doRequest w code p td now).queue
          = w.queue ++ (requestMutexUpdate w.mutexes code
              { uniqueId := w.counter + 1, priority := p }).2.map (taskOfCall code now)) ∧
    (∀ (w : World) (code : String) (p : Int) (d : Int) (now : Int), 0 < d →
        ({ due := now + d, act := TaskAct.timeoutFire code (w.counter + 1) } : HostTask)
          ∈ (doRequest w code p (some d) now).queue) ∧
    (∀ (w : World) (code : String) (p : Int) (td : Option Int) (now : Int),
        (∀ d, td = some d → d ≤ 0) → WFTimers w →
        ∀ ops : List WorldOp,
          lookupA (runOps (doRequest w code p td now) ops).promises (w.counter + 1)
            ≠ some PromiseState.rejected) := by
  refine ⟨?_, ?_, ?_⟩
  · intro w code p td now htd
    rcases td with _ | d
    · simp [doRequest]
    · have hd : ¬ d > 0 := by have := htd d rfl; omega
      simp [doRequest, hd]
  · intro w code p d now hd
    simp [doRequest, hd]
  · intro w code p td now htd hwf ops
    exact (safeHolder_runOps _ _ ops (safeHolder_established w code p td now htd hwf)).1

/-- Witness for C10 at concrete inputs: a request with `timeoutDelay = -5`
on the fresh page arms no timer, its promise survives a run of the scheduler
unrejected, while `timeoutDelay = 50` does arm a timer. -/
theorem nonpositive_timeout_arms_no_timer_and_never_rejects_witness :
    ((doRequest initialWorld "x" 5 (some (-5)) 0).queue
        = initialWorld.queue ++ (requestMutexUpdate initialWorld.mutexes "x"
            { uniqueId := initialWorld.counter + 1, priority := 5 }).2.map (taskOfCall "x" 0)) ∧
    (({ due := 0 + 50, act := TaskAct.timeoutFire "x" (initialWorld.counter + 1) } : HostTask)
        ∈ (doRequest initialWorld "x" 5 (some 50) 0).queue) ∧
    lookupA (runOps (doRequest initialWorld "x" 5 (some (-5)) 0) [WorldOp.runTask]).promises
        (initialWorld.counter + 1) ≠ some PromiseState.rejected :=
  ⟨nonpositive_timeout_arms_no_timer_and_never_rejects.1 initialWorld "x" 5 (some (-5)) 0
      (by intro d hd; cases hd; decide),
    nonpositive_timeout_arms_no_timer_and_never_rejects.2.1 initialWorld "x" 5 50 0 (by decide),
    nonpositive_timeout_arms_no_timer_and_never_rejects.2.2 initialWorld "x" 5 (some (-5)) 0
      (by intro d hd; cases hd; decide) (by intro t ht; simp [initialWorld] at ht)
      [WorldOp.runTask]⟩


/-! ## Lemmas: event registry -/

theorem getEventListeners_set_self (st : EventState) (e : String)
    (m : List (String × Listener)) :
    getEventListeners (setEventListeners st e m) e = m := by
  simp [getEventListeners, setEventListeners, lookupA_upsertA_self]

theorem getEventListeners_set_ne (st : EventState) (e e' : String)
    (m : List (String × Listener)) (h : e' ≠ e) :
    getEventListeners (setEventListeners st e m) e' = getEventListeners st e' := by
  simp [getEventListeners, setEventListeners, lookupA_upsertA_ne _ _ _ _ h]

theorem dispatchEventFuel_succ (fuel : Nat) (st : EventState) (event : String)
    (payload : List JsValue) :
    dispatchEventFuel (fuel + 1) st event payload
      = if (getEventListeners st event).isEmpty then (none, [(event, payload)])
        else
          (some ((((getEventListeners st event).map (fun p =>
              runListener (fun e2 p2 => dispatchEventFuel fuel st e2 p2) p.2 payload)).map
                Prod.fst).flatten),
            (event, payload) ::
              (((getEventListeners st event).map (fun p =>
                runListener (fun e2 p2 => dispatchEventFuel fuel st e2 p2) p.2 payload)).map
                  Prod.snd).flatten) := rfl

theorem dispatch_runs_fn_fst
    (R : String → List JsValue → Option (List JsValue) × List (String × List JsValue))
    (payload : List JsValue) :
    ∀ fs : List (String × (List JsValue → Except Unit JsValue)),
      (((fs.map (fun p => (p.1, Listener.fn p.2))).map
          (fun p => runListener R p.2 payload)).map Prod.fst).flatten
        = fs.filterMap (fun p => (p.2 payload).toOption) := by
  intro fs
  induction fs with
  | nil => rfl
  | cons f rest ih =>
      simp only [List.map_cons, List.flatten_cons, List.filterMap_cons]
      rw [ih]
      cases hf : f.2 payload with
      | ok r => simp [runListener, hf, Except.toOption]
      | error e => simp [runListener, hf, Except.toOption]

/-- **C6**: `dispatchEvent` invokes every registered listener — each
listener's normal result appears, in order, in the returned list — catches
and discards any exception thrown by an individual listener (an erroring
listener contributes nothing, and delivery to the other listeners is
unaffected; the dispatch itself always returns normally), and returns the
`null` sentinel exactly when zero listeners are registered for the type. -/
theorem dispatch_isolates_failures_and_none_sentinel :
    ∀ (fuel : Nat) (st : EventState) (event : String) (payload : List JsValue)
      (fs : List (String × (List JsValue → Except Unit JsValue))),
      getEventListeners st event = fs.map (fun p => (p.1, Listener.fn p.2)) →
      (dispatchEventFuel (fuel + 1) st event payload).1
        = if fs.isEmpty then none
          else some (fs.filterMap (fun p => (p.2 payload).toOption)) := by
  intro fuel st event payload fs hst
  rw [dispatchEventFuel_succ, hst]
  cases fs with
  | nil => simp
  | cons f rest =>
      rw [if_neg (by simp), if_neg (by simp)]
      simp only [Option.some.injEq]
      exact dispatch_runs_fn_fst _ payload (f :: rest)

/-- Witness for C6 at concrete inputs: three listeners, the middle one
throwing; the dispatch returns the two successful results in order. -/
theorem dispatch_isolates_failures_and_none_sentinel_witness :
    (dispatchEventFuel 1
        [("e", [("a", Listener.fn (fun _ => Except.ok (JsValue.vNum 1))),
                ("b", Listener.fn (fun _ => Except.error ())),
                ("c", Listener.fn (fun _ => Except.ok (JsValue.vNum 3)))])]
        "e" []).1
      = some [JsValue.vNum 1, JsValue.vNum 3] := by
  have h := dispatch_isolates_failures_and_none_sentinel 0
    [("e", [("a", Listener.fn (fun _ => Except.ok (JsValue.vNum 1))),
            ("b", Listener.fn (fun _ => Except.error ())),
            ("c", Listener.fn (fun _ => Except.ok (JsValue.vNum 3)))])]
    "e" []
    [("a", fun _ => Except.ok (JsValue.vNum 1)),
     ("b", fun _ => Except.error ()),
     ("c", fun _ => Except.ok (JsValue.vNum 3))] rfl
  simpa [Except.toOption] using h

theorem runListener_fn_snd
    (R : String → List JsValue → Option (List JsValue) × List (String × List JsValue))
    (f : List JsValue → Except Unit JsValue) (payload : List JsValue) :
    (runListener R (Listener.fn f) payload).2 = [] := by
  cases h : f payload <;> simp [runListener, h]

/-- **C5**: the hidden listener installed for a `(derivedEvent, baseEvent)`
pair dispatches the derived event on a base occurrence exactly when
`mapPayload` applied to the base payload returns an array, and with that
array as the derived payload tuple; every non-array result suppresses the
derived dispatch for that occurrence. -/
theorem derived_dispatched_iff_mapped_payload_is_array :
    ∀ (bev dev hidId gId : String) (mp : List JsValue → JsValue)
      (g : List JsValue → Except Unit JsValue) (payload elems : List JsValue),
      bev ≠ dev →
      ((dev, elems) ∈
          (dispatchEventFuel 2
            [(bev, [(hidId, Listener.derivedForwarder dev mp)]),
             (dev, [(gId, Listener.fn g)])] bev payload).2
        ↔ mp payload = JsValue.vArr elems) := by
  intro bev dev hidId gId mp g payload elems hne
  have hbase : getEventListeners
      [(bev, [(hidId, Listener.derivedForwarder dev mp)]), (dev, [(gId, Listener.fn g)])] bev
      = [(hidId, Listener.derivedForwarder dev mp)] := by
    simp [getEventListeners, lookupA]
  have hder : getEventListeners
      [(bev, [(hidId, Listener.derivedForwarder dev mp)]), (dev, [(gId, Listener.fn g)])] dev
      = [(gId, Listener.fn g)] := by
    simp [getEventListeners, lookupA, hne]
  rw [show (2 : Nat) = 1 + 1 from rfl, dispatchEventFuel_succ, hbase]
  rw [if_neg (by simp)]
  cases hmp : mp payload with
  | vArr xs =>
      simp only [List.map_cons, List.map_nil, runListener, hmp]
      rw [dispatchEventFuel_succ, hder]
      rw [if_neg (by simp)]
      simp [List.mem_cons, Prod.ext_iff, hne, Ne.symm hne, runListener_fn_snd, eq_comm]
  | vUndef =>
      simp [runListener, hmp, Prod.ext_iff, Ne.symm hne]
  | vNull =>
      simp [runListener, hmp, Prod.ext_iff, Ne.symm hne]
  | vBool b =>
      simp [runListener, hmp, Prod.ext_iff, Ne.symm hne]
  | vNum n =>
      simp [runListener, hmp, Prod.ext_iff, Ne.symm hne]
  | vStr str =>
      simp [runListener, hmp, Prod.ext_iff, Ne.symm hne]

/-- Witness for C5 at concrete inputs: the extractor returns `[7]` for a
one-element payload, so dispatching the base event logs a derived dispatch
with payload `[7]`. -/
theorem derived_dispatched_iff_mapped_payload_is_array_witness :
    ("parsed", [JsValue.vNum 7]) ∈
      (dispatchEventFuel 2
        [("raw", [("h", Listener.derivedForwarder "parsed"
            (fun p => match p with
              | [x] => JsValue.vArr [x]
              | _ => JsValue.vNull))]),
         ("parsed", [("g", Listener.fn (fun _ => Except.ok JsValue.vUndef))])]
        "raw" [JsValue.vNum 7]).2 :=
  (derived_dispatched_iff_mapped_payload_is_array "raw" "parsed" "h" "g"
    (fun p => match p with
      | [x] => JsValue.vArr [x]
      | _ => JsValue.vNull)
    (fun _ => Except.ok JsValue.vUndef) [JsValue.vNum 7] [JsValue.vNum 7]
    (by decide)).mpr rfl

/-- **C7 counterexample**: `dispatchEvent` invokes registered listeners
synchronously within the dispatch call — the listener's computed result is
part of the value the call itself returns — refuting the claim that event
listener invocation triggered by a dispatch is deferred to a later scheduler
turn and never performed within the triggering call. -/
theorem dispatch_invokes_listener_synchronously :
    (dispatchEventFuel 1
        [("e", [("id1", Listener.fn (fun _ => Except.ok (JsValue.vNum 42)))])] "e" []).1
      = some [JsValue.vNum 42] := rfl

/-- **C7 (amended)**: the mutex notifications are deferred — `requestMutex`
returns with the new promise still pending even when the resource was free
(`onAcquired` is only scheduled), an effective release settles no promise
synchronously (the promoted holder's `onAcquired` is only scheduled), and a
higher-priority arrival only schedules the holder's `onSupersessionRequest`
— but event listeners invoked by `dispatchEvent` run synchronously within
the dispatch call, which returns their results. -/
theorem mutex_notifications_deferred_but_dispatch_synchronous :
    (∀ (w : World) (code : String) (p : Int) (td : Option Int) (now : Int),
        lookupA (doRequest w code p td now).promises (w.counter + 1)
          = some PromiseState.pending) ∧
    (∀ (m : Mutex) (holder : MutexHolder), m.currentHolder = none →
        acquireMutexUpdate holder m
          = ({ m with currentHolder := some holder },
              [ScheduledCall.onAcquired holder.uniqueId])) ∧
    (∀ (w : World) (code : String) (holderId : Nat) (now : Int),
        (doRelease w code holderId now).promises = w.promises) ∧
    (∀ (m : Mutex) (cur holder : MutexHolder), m.currentHolder = some cur →
        holder.priority > cur.priority →
        (acquireMutexUpdate holder m).2
          = [ScheduledCall.onSupersessionRequest cur.uniqueId]) ∧
    (∀ (f : List JsValue → Except Unit JsValue) (event listenerId : String)
        (payload : List JsValue) (r : JsValue), f payload = Except.ok r →
        (dispatchEventFuel 1 [(event, [(listenerId, Listener.fn f)])] event payload).1
          = some [r]) := by
  refine ⟨?_, ?_, ?_, ?_, ?_⟩
  · intro w code p td now
    simp [doRequest, lookupA]
  · intro m holder hm
    simp [acquireMutexUpdate, hm]
  · intro w code holderId now
    rfl
  · intro m cur holder hm hp
    simp [acquireMutexUpdate, hm, hp]
  · intro f event listenerId payload r hf
    rw [show (1 : Nat) = 0 + 1 from rfl, dispatchEventFuel_succ]
    simp [getEventListeners, lookupA, runListener, hf]

/-- Witness for C7's amended claim at concrete inputs. -/
theorem mutex_notifications_deferred_but_dispatch_synchronous_witness :
    lookupA (doRequest initialWorld "x" 5 none 0).promises 1 = some PromiseState.pending ∧
    acquireMutexUpdate { uniqueId := 1, priority := 5 } initMutex
      = ({ currentHolder := some { uniqueId := 1, priority := 5 }, pendingHolders := [] },
          [ScheduledCall.onAcquired 1]) ∧
    (dispatchEventFuel 1 [("e", [("i", Listener.fn (fun _ => Except.ok JsValue.vNull))])]
        "e" []).1 = some [JsValue.vNull] :=
  ⟨mutex_notifications_deferred_but_dispatch_synchronous.1 initialWorld "x" 5 none 0,
    mutex_notifications_deferred_but_dispatch_synchronous.2.1 initMutex
      { uniqueId := 1, priority := 5 } rfl,
    mutex_notifications_deferred_but_dispatch_synchronous.2.2.2.2
      (fun _ => Except.ok JsValue.vNull) "e" "i" [] JsValue.vNull rfl⟩

/-! ## Lemmas: derived-event registration and reference-counted teardown -/

theorem getEventListeners_register_self (st : EventState) (e : String) (cb : Listener)
    (i : String) :
    getEventListeners (registerEventListener st e cb i) e
      = upsertA (getEventListeners st e) i cb := by
  simp [registerEventListener, getEventListeners_set_self]

theorem getEventListeners_register_ne (st : EventState) (e e' : String) (cb : Listener)
    (i : String) (h : e' ≠ e) :
    getEventListeners (registerEventListener st e cb i) e' = getEventListeners st e' := by
  simp [registerEventListener, getEventListeners_set_ne _ _ _ _ h]

theorem getEventListeners_unregister_self (st : EventState) (e i : String) :
    getEventListeners (unregisterEventListener st e i) e
      = (getEventListeners st e).filter (fun p => p.1 != i) := by
  simp [unregisterEventListener, getEventListeners_set_self]

theorem getEventListeners_unregister_ne (st : EventState) (e e' i : String) (h : e' ≠ e) :
    getEventListeners (unregisterEventListener st e i) e' = getEventListeners st e' := by
  simp [unregisterEventListener, getEventListeners_set_ne _ _ _ _ h]

theorem derived_registration_invariant (dev bev : String) (mp : List JsValue → JsValue)
    (bev0 : List (String × Listener)) (hne : bev ≠ dev)
    (hbase : lookupA bev0 (derivedBaseListenerId bev dev) = none) :
    ∀ (regs : List (String × Listener)) (st : EventState)
      (processed : List (String × Listener)),
      ((processed ++ regs).map Prod.fst).Nodup →
      getEventListeners st dev = processed →
      getEventListeners st bev
        = bev0 ++ (if processed.isEmpty then []
            else [(derivedBaseListenerId bev dev, Listener.derivedForwarder dev mp)]) →
      getEventListeners
          (regs.foldl (fun s r => registerDerivedEventListener s dev bev r.2 mp r.1) st) dev
        = processed ++ regs ∧
      getEventListeners
          (regs.foldl (fun s r => registerDerivedEventListener s dev bev r.2 mp r.1) st) bev
        = bev0 ++ (if (processed ++ regs).isEmpty then []
            else [(derivedBaseListenerId bev dev, Listener.derivedForwarder dev mp)]) := by
  intro regs
  induction regs with
  | nil =>
      intro st processed hnd hdev hbev
      refine ⟨by simpa using hdev, ?_⟩
      rw [List.foldl_nil, List.append_nil]
      exact hbev
  | cons r rest ih =>
      intro st processed hnd hdev hbev
      obtain ⟨i, cb⟩ := r
      have hdevbev : dev ≠ bev := Ne.symm hne
      -- the state after installing (or keeping) the hidden base listener
      have hst1 : ∃ st1 : EventState,
          (if hasEventListener st bev (derivedBaseListenerId bev dev) then st
            else registerEventListener st bev
              (Listener.derivedForwarder dev mp) (derivedBaseListenerId bev dev)) = st1 ∧
          getEventListeners st1 dev = processed ∧
          getEventListeners st1 bev
            = bev0 ++ [(derivedBaseListenerId bev dev, Listener.derivedForwarder dev mp)] := by
        cases hp : processed.isEmpty with
        | true =>
            have hproc : processed = [] := by
              cases processed with
              | nil => rfl
              | cons a l => simp at hp
            have hbev' : getEventListeners st bev = bev0 := by
              rw [hbev, hp]
              simp
            have hhas : hasEventListener st bev (derivedBaseListenerId bev dev) = false := by
              simp [hasEventListener, hbev', hbase]
            refine ⟨registerEventListener st bev
                (Listener.derivedForwarder dev mp) (derivedBaseListenerId bev dev),
              by rw [hhas]; simp, ?_, ?_⟩
            · rw [getEventListeners_register_ne _ _ _ _ _ hdevbev, hdev]
            · rw [getEventListeners_register_self, hbev',
                upsertA_of_lookupA_none _ _ _ hbase]
        | false =>
            have hbev' : getEventListeners st bev
                = bev0 ++ [(derivedBaseListenerId bev dev, Listener.derivedForwarder dev mp)] := by
              rw [hbev, hp]
              simp
            have hhas : hasEventListener st bev (derivedBaseListenerId bev dev) = true := by
              simp [hasEventListener, hbev', lookupA_append_of_none _ _ _ hbase, lookupA]
            exact ⟨st, by rw [hhas]; simp, hdev, hbev'⟩
      obtain ⟨st1, hst1eq, hst1dev, hst1bev⟩ := hst1
      have hinotin : i ∉ processed.map Prod.fst := by
        have hnd2 : (processed.map Prod.fst ++ i :: rest.map Prod.fst).Nodup := by
          simpa using hnd
        intro hmem
        exact (List.disjoint_of_nodup_append hnd2) hmem (List.mem_cons_self i _)
      have hlook : lookupA processed i = none := by
        rw [lookupA_eq_none_iff]
        intro p hp hpk
        exact hinotin (hpk ▸ List.mem_map_of_mem Prod.fst hp)
      have hstep : registerDerivedEventListener st dev bev cb mp i
          = registerEventListener st1 dev cb i := by
        rw [← hst1eq]
        rfl
      have hstepdev : getEventListeners (registerEventListener st1 dev cb i) dev
          = processed ++ [(i, cb)] := by
        rw [getEventListeners_register_self, hst1dev, upsertA_of_lookupA_none _ _ _ hlook]
      have hstepbev : getEventListeners (registerEventListener st1 dev cb i) bev
          = bev0 ++ [(derivedBaseListenerId bev dev, Listener.derivedForwarder dev mp)] := by
        rw [getEventListeners_register_ne _ _ _ _ _ hne, hst1bev]
      have hfold : (((i, cb) :: rest).foldl
            (fun s r => registerDerivedEventListener s dev bev r.2 mp r.1) st)
          = rest.foldl (fun s r => registerDerivedEventListener s dev bev r.2 mp r.1)
              (registerEventListener st1 dev cb i) := by
        rw [List.foldl_cons, hstep]
      rw [hfold]
      have hnd' : (((processed ++ [(i, cb)]) ++ rest).map Prod.fst).Nodup := by
        simpa [List.append_assoc] using hnd
      have := ih (registerEventListener st1 dev cb i) (processed ++ [(i, cb)]) hnd'
        hstepdev (by rw [hstepbev]; simp)
      obtain ⟨hdevf, hbevf⟩ := this
      constructor
      · rw [hdevf]
        simp [List.append_assoc]
      · rw [hbevf]
        simp

theorem filter_key_erase {β : Type} (regs : List (String × β)) (remaining : List String)
    (i : String) (hnd : remaining.Nodup) :
    (regs.filter (fun p => decide (p.1 ∈ remaining))).filter (fun p => p.1 != i)
      = regs.filter (fun p => decide (p.1 ∈ remaining.erase i)) := by
  rw [List.filter_filter]
  apply List.filter_congr
  intro p _
  by_cases hi : p.1 = i
  · simp [hi, List.Nodup.mem_erase_iff hnd]
  · simp [hi, List.mem_erase_of_ne hi]

theorem derived_unregistration_invariant (dev bev : String) (mp : List JsValue → JsValue)
    (bev0 : List (String × Listener)) (regs : List (String × Listener))
    (hne : bev ≠ dev) (hbase : lookupA bev0 (derivedBaseListenerId bev dev) = none) :
    ∀ (order remaining : List String) (st : EventState),
      order.Perm remaining →
      remaining.Nodup →
      getEventListeners st dev = regs.filter (fun p => decide (p.1 ∈ remaining)) →
      getEventListeners st bev
        = bev0 ++ (if (regs.filter (fun p => decide (p.1 ∈ remaining))).isEmpty then []
            else [(derivedBaseListenerId bev dev, Listener.derivedForwarder dev mp)]) →
      getEventListeners
          (order.foldl (fun s i => unregisterDerivedEventListener s dev bev i) st) dev = [] ∧
      getEventListeners
          (order.foldl (fun s i => unregisterDerivedEventListener s dev bev i) st) bev
        = bev0 := by
  intro order
  induction order with
  | nil =>
      intro remaining st hperm hnd hdev hbev
      have hrem : remaining = [] := (List.perm_nil.mp hperm.symm)
      subst hrem
      have hfilter : regs.filter (fun p => decide (p.1 ∈ ([] : List String))) = [] := by
        simp
      rw [List.foldl_nil]
      rw [hfilter] at hdev hbev
      refine ⟨hdev, ?_⟩
      rw [hbev]
      simp
  | cons i order' ih =>
      intro remaining st hperm hnd hdev hbev
      have hmemi : i ∈ remaining := hperm.mem_iff.mp (List.mem_cons_self i order')
      have hperm' : order'.Perm (remaining.erase i) :=
        (List.cons_perm_iff_perm_erase.mp hperm).2
      have hnd' : (remaining.erase i).Nodup := hnd.erase i
      have hdevbev : dev ≠ bev := Ne.symm hne
      -- the state after deleting the caller's derived listener
      have hst1dev : getEventListeners (unregisterEventListener st dev i) dev
          = regs.filter (fun p => decide (p.1 ∈ remaining.erase i)) := by
        rw [getEventListeners_unregister_self, hdev, filter_key_erase _ _ _ hnd]
      have hst1bev : getEventListeners (unregisterEventListener st dev i) bev
          = getEventListeners st bev :=
        getEventListeners_unregister_ne _ _ _ _ hne
      rw [List.foldl_cons]
      cases hre : (regs.filter (fun p => decide (p.1 ∈ remaining.erase i))).isEmpty with
      | false =>
          -- some derived listener remains: the hidden base listener is kept
          have hstay : unregisterDerivedEventListener st dev bev i
              = unregisterEventListener st dev i := by
            unfold unregisterDerivedEventListener
            rw [if_pos]
            simp [hasEventListeners, hst1dev, hre]
          rw [hstay]
          apply ih (remaining.erase i) _ hperm' hnd' hst1dev
          rw [hst1bev, hbev, hre]
          have hfull : (regs.filter (fun p => decide (p.1 ∈ remaining))).isEmpty = false := by
            rcases (by rw [List.isEmpty_eq_false_iff_exists_mem] at hre; exact hre :
                ∃ x, x ∈ regs.filter (fun p => decide (p.1 ∈ remaining.erase i))) with ⟨x, hx⟩
            rw [List.isEmpty_eq_false_iff_exists_mem]
            refine ⟨x, ?_⟩
            rw [List.mem_filter] at hx ⊢
            refine ⟨hx.1, ?_⟩
            have := hx.2
            simp only [decide_eq_true_eq] at this ⊢
            exact List.mem_of_mem_erase this
          rw [hfull]
      | true =>
          -- no derived listener remains: the hidden base listener is removed
          have hgone : unregisterDerivedEventListener st dev bev i
              = unregisterEventListener (unregisterEventListener st dev i) bev
                  (derivedBaseListenerId bev dev) := by
            unfold unregisterDerivedEventListener
            rw [if_neg]
            simp [hasEventListeners, hst1dev, hre]
          rw [hgone]
          have hst2dev : getEventListeners
              (unregisterEventListener (unregisterEventListener st dev i) bev
                (derivedBaseListenerId bev dev)) dev
              = regs.filter (fun p => decide (p.1 ∈ remaining.erase i)) := by
            rw [getEventListeners_unregister_ne _ _ _ _ hdevbev, hst1dev]
          have hst2bev : getEventListeners
              (unregisterEventListener (unregisterEventListener st dev i) bev
                (derivedBaseListenerId bev dev)) bev
              = bev0 := by
            rw [getEventListeners_unregister_self, hst1bev, hbev]
            cases hfl : (regs.filter (fun p => decide (p.1 ∈ remaining))).isEmpty with
            | true => simp [filter_ne_key_of_lookupA_none _ _ hbase]
            | false => simp [List.filter_append, filter_ne_key_of_lookupA_none _ _ hbase]
          apply ih (remaining.erase i) _ hperm' hnd' hst2dev
          rw [hst2bev, hre]
          simp

/-- **C4**: starting from a state with no listener on the derived event and no
hidden base listener for the pair, N ≥ 1 calls to
`registerDerivedEventListener` for the same `(derivedEvent, baseEvent)` pair
(with distinct derived listener ids, as produced by the unique-id generator)
install exactly one hidden listener on the base event — created by the first
call — and after all N returned unregister closures have been called, in any
order, the hidden base listener is gone (it is removed by exactly the call
that leaves the derived event without listeners), and the base event's
listener map is back to its initial contents. -/
theorem hidden_base_listener_refcounted :
    ∀ (bev dev : String) (st0 : EventState) (mp : List JsValue → JsValue)
      (regs : List (String × Listener)) (order : List String),
      bev ≠ dev → regs ≠ [] → (regs.map Prod.fst).Nodup →
      order.Perm (regs.map Prod.fst) →
      getEventListeners st0 dev = [] →
      hasEventListener st0 bev (derivedBaseListenerId bev dev) = false →
      ((getEventListeners
          (regs.foldl (fun s r => registerDerivedEventListener s dev bev r.2 mp r.1) st0)
          bev).countP (fun p => p.1 == derivedBaseListenerId bev dev) = 1) ∧
      getEventListeners
          (order.foldl (fun s i => unregisterDerivedEventListener s dev bev i)
            (regs.foldl (fun s r => registerDerivedEventListener s dev bev r.2 mp r.1) st0))
          dev = [] ∧
      hasEventListener
          (order.foldl (fun s i => unregisterDerivedEventListener s dev bev i)
            (regs.foldl (fun s r => registerDerivedEventListener s dev bev r.2 mp r.1) st0))
          bev (derivedBaseListenerId bev dev) = false := by
  intro bev dev st0 mp regs order hne hregs hnd hperm hdev0 hbev0
  have hbase : lookupA (getEventListeners st0 bev) (derivedBaseListenerId bev dev) = none := by
    rcases hcase : lookupA (getEventListeners st0 bev) (derivedBaseListenerId bev dev) with _ | v
    · rfl
    · rw [hasEventListener, hcase] at hbev0
      simp at hbev0
  obtain ⟨hdevN, hbevN⟩ :=
    derived_registration_invariant dev bev mp (getEventListeners st0 bev) hne hbase regs st0 []
      (by simpa using hnd) hdev0 (by simp)
  rw [List.nil_append] at hdevN hbevN
  have hregsne : regs.isEmpty = false := by
    cases regs with
    | nil => exact absurd rfl hregs
    | cons a l => rfl
  rw [hregsne] at hbevN
  simp only [Bool.false_eq_true, if_false] at hbevN
  refine ⟨?_, ?_⟩
  · rw [hbevN, List.countP_append, countP_key_eq_zero_of_lookupA_none _ _ hbase]
    simp
  · have hfilter : regs.filter (fun p => decide (p.1 ∈ regs.map Prod.fst)) = regs := by
      rw [List.filter_eq_self]
      intro p hp
      simp [List.mem_map_of_mem Prod.fst hp]
    have hfe : (regs.filter (fun p => decide (p.1 ∈ regs.map Prod.fst))).isEmpty = false := by
      rw [hfilter]; exact hregsne
    obtain ⟨hdevF, hbevF⟩ :=
      derived_unregistration_invariant dev bev mp (getEventListeners st0 bev) regs hne hbase
        order (regs.map Prod.fst)
        (regs.foldl (fun s r => registerDerivedEventListener s dev bev r.2 mp r.1) st0)
        hperm hnd (by rw [hfilter]; exact hdevN) (by rw [hfe, hbevN]; simp)
    refine ⟨hdevF, ?_⟩
    rw [hasEventListener, hbevF, hbase]
    rfl

/-- Witness for C4 at concrete inputs: two derived registrations for
`("d", "b")`, unregistered in reverse order. -/
theorem hidden_base_listener_refcounted_witness :
    ((getEventListeners
        ([("i1", Listener.fn (fun _ => Except.ok JsValue.vNull)),
          ("i2", Listener.fn (fun _ => Except.ok JsValue.vUndef))].foldl
          (fun s r => registerDerivedEventListener s "d" "b" r.2 (fun _ => JsValue.vNull) r.1)
          ([] : EventState))
        "b").countP (fun p => p.1 == derivedBaseListenerId "b" "d") = 1) ∧
    getEventListeners
        (["i2", "i1"].foldl (fun s i => unregisterDerivedEventListener s "d" "b" i)
          ([("i1", Listener.fn (fun _ => Except.ok JsValue.vNull)),
            ("i2", Listener.fn (fun _ => Except.ok JsValue.vUndef))].foldl
            (fun s r => registerDerivedEventListener s "d" "b" r.2 (fun _ => JsValue.vNull) r.1)
            ([] : EventState)))
        "d" = [] ∧
    hasEventListener
        (["i2", "i1"].foldl (fun s i => unregisterDerivedEventListener s "d" "b" i)
          ([("i1", Listener.fn (fun _ => Except.ok JsValue.vNull)),
            ("i2", Listener.fn (fun _ => Except.ok JsValue.vUndef))].foldl
            (fun s r => registerDerivedEventListener s "d" "b" r.2 (fun _ => JsValue.vNull) r.1)
            ([] : EventState)))
        "b" (derivedBaseListenerId "b" "d") = false :=
  hidden_base_listener_refcounted "b" "d" [] (fun _ => JsValue.vNull)
    [("i1", Listener.fn (fun _ => Except.ok JsValue.vNull)),
      ("i2", Listener.fn (fun _ => Except.ok JsValue.vUndef))]
    ["i2", "i1"] (by decide) (by simp) (by decide) (by decide) rfl rfl
